import Mathlib

/-
Verification development for src/utils/spotify.py (Spotify search crawler
with Genius lyrics enrichment).

Shallow embedding conventions:
  * Python strings are modelled as List Char; str.lower is modelled
    character-wise with Char.toLower (the strings the program manipulates
    are ASCII API names and queries).
  * Python dictionaries backing JSON objects are modelled as structures;
    a JSON key that may be absent is an Option field, and a key whose value
    may be JSON null is an Option inside that Option.
  * time.time() is modelled as a rational number passed explicitly; the two
    time.time() calls inside one get_authorized_header invocation (the
    expiry check and the refresh timestamp) are modelled as one instant.
  * The network is modelled as explicit oracles (functions from URL or
    instant to response data).
  * Scrapy generator callbacks are modelled as pure functions returning the
    list of requests they yield together with the mutated state; callbacks
    of scheduled requests run after the scheduling generator has finished,
    which is the order the engine produces.
-/

/-- Character-wise lower casing, modelling Python str.lower on the ASCII
strings the crawler manipulates. -/
def pyLower (s : List Char) : List Char := s.map Char.toLower

/-- Whether the first list is a prefix of the second (Boolean, executable). -/
def lcStartsWith : List Char → List Char → Bool
  | [], _ => true
  | _ :: _, [] => false
  | a :: as, b :: bs => a == b && lcStartsWith as bs

/-- Python's substring test needle in haystack. -/
def lcContains (needle hay : List Char) : Bool :=
  match hay with
  | [] => needle.isEmpty
  | b :: bs => lcStartsWith needle (b :: bs) || lcContains needle bs

/-- The TrackItemPipeline.legalizer substitution table, in the source's
insertion (hence iteration) order. -/
def legalizer : List (Char × List Char) :=
  [ ('\"', "((dquote))".toList),
    ('*', "((asterisk))".toList),
    ('<', "((lt))".toList),
    ('>', "((gt))".toList),
    ('?', "((q))".toList),
    ('\\', "((bslash))".toList),
    ('/', "((fslash))".toList),
    ('|', "((pipe))".toList),
    (':', "((colon))".toList) ]

/-- Python str.replace specialised to a single-character pattern (every
pattern in the legalizer table is one character): each occurrence of c is
replaced by r. -/
def replaceChar (c : Char) (r : List Char) : List Char → List Char
  | [] => []
  | x :: xs => (if x = c then r else [x]) ++ replaceChar c r xs

/-- The for-loop of TrackItemPipeline.legalize_filename: fold the
substitution table over the string, one full-string replace per entry. -/
def applyTable (tab : List (Char × List Char)) (s : List Char) : List Char :=
  tab.foldl (fun acc p => replaceChar p.1 p.2 acc) s

/-- TrackItemPipeline.legalize_filename. -/
def legalize_filename (s : List Char) : List Char := applyTable legalizer s

/-- The simultaneous single-pass substitution of the table, used to state
that the sequential folds agree with per-character substitution. -/
def charSubst (c : Char) : List Char := (List.lookup c legalizer).getD [c]

/-- Single-pass character substitution over a whole string. -/
def substAll (s : List Char) : List Char := s.flatMap charSubst

theorem replaceChar_of_not_mem {c : Char} {r s : List Char} (h : c ∉ s) :
    replaceChar c r s = s := by
  induction s with
  | nil => rfl
  | cons x xs ih =>
    simp only [List.mem_cons, not_or] at h
    have hx : ¬ x = c := fun hx => h.1 hx.symm
    simp [replaceChar, ih h.2, hx]

theorem mem_replaceChar {x c : Char} {r s : List Char}
    (h : x ∈ replaceChar c r s) : x ∈ r ∨ x ∈ s := by
  induction s with
  | nil => simp [replaceChar] at h
  | cons y ys ih =>
    simp only [replaceChar, List.mem_append] at h
    rcases h with h | h
    · by_cases hy : y = c
      · rw [if_pos hy] at h
        exact Or.inl h
      · rw [if_neg hy] at h
        simp only [List.mem_singleton] at h
        exact Or.inr (by simp [h])
    · rcases ih h with h | h
      · exact Or.inl h
      · exact Or.inr (List.mem_cons_of_mem _ h)

theorem not_mem_replaceChar_self {c : Char} {r : List Char} (hr : c ∉ r)
    (s : List Char) : c ∉ replaceChar c r s := by
  induction s with
  | nil => simp [replaceChar]
  | cons x xs ih =>
    simp only [replaceChar, List.mem_append, not_or]
    refine ⟨?_, ih⟩
    by_cases hx : x = c
    · rw [if_pos hx]; exact hr
    · rw [if_neg hx]
      simp only [List.mem_singleton]
      exact fun h => hx h.symm

theorem applyTable_append_tab (t1 t2 : List (Char × List Char))
    (s : List Char) :
    applyTable (t1 ++ t2) s = applyTable t2 (applyTable t1 s) :=
  List.foldl_append _ _ _ _

theorem not_mem_applyTable {c : Char} {tab : List (Char × List Char)}
    (hr : ∀ q ∈ tab, c ∉ q.2) {s : List Char} (hs : c ∉ s) :
    c ∉ applyTable tab s := by
  induction tab generalizing s with
  | nil => exact hs
  | cons p ps ih =>
    have step : c ∉ replaceChar p.1 p.2 s := fun h => by
      rcases mem_replaceChar h with h | h
      · exact hr p (List.mem_cons_self _ _) h
      · exact hs h
    exact ih (fun q hq => hr q (List.mem_cons_of_mem _ hq)) step

/-- No character that heads an entry of a cross-occurrence-free table
survives in the fold's output. -/
theorem not_mem_applyTable_of_mem {tab : List (Char × List Char)}
    (hcross : ∀ p ∈ tab, ∀ q ∈ tab, p.1 ∉ q.2) {p : Char × List Char}
    (hp : p ∈ tab) (s : List Char) : p.1 ∉ applyTable tab s := by
  rcases List.append_of_mem hp with ⟨t1, t2, rfl⟩
  rw [show t1 ++ p :: t2 = t1 ++ ([p] ++ t2) by simp] at *
  rw [applyTable_append_tab, applyTable_append_tab]
  have hself : p.1 ∉ p.2 :=
    hcross p hp p hp
  have hmid : p.1 ∉ applyTable [p] (applyTable t1 s) :=
    not_mem_replaceChar_self hself _
  refine not_mem_applyTable (fun q hq => ?_) hmid
  exact hcross p hp q (by simp [hq])

theorem applyTable_of_not_mem {tab : List (Char × List Char)}
    {s : List Char} (h : ∀ p ∈ tab, p.1 ∉ s) : applyTable tab s = s := by
  induction tab with
  | nil => rfl
  | cons p ps ih =>
    have h1 : replaceChar p.1 p.2 s = s :=
      replaceChar_of_not_mem (h p (List.mem_cons_self _ _))
    show applyTable ps (replaceChar p.1 p.2 s) = s
    rw [h1]
    exact ih (fun q hq => h q (List.mem_cons_of_mem _ hq))

/-- Sequential application of a cross-occurrence-free table is idempotent. -/
theorem applyTable_idem {tab : List (Char × List Char)}
    (hcross : ∀ p ∈ tab, ∀ q ∈ tab, p.1 ∉ q.2) (s : List Char) :
    applyTable tab (applyTable tab s) = applyTable tab s :=
  applyTable_of_not_mem (fun _ hp => not_mem_applyTable_of_mem hcross hp s)

theorem replaceChar_append (c : Char) (r s t : List Char) :
    replaceChar c r (s ++ t) = replaceChar c r s ++ replaceChar c r t := by
  induction s with
  | nil => rfl
  | cons x xs ih => simp [replaceChar, ih]

theorem applyTable_append_str (tab : List (Char × List Char))
    (s t : List Char) :
    applyTable tab (s ++ t) = applyTable tab s ++ applyTable tab t := by
  induction tab generalizing s t with
  | nil => rfl
  | cons p ps ih =>
    show applyTable ps (replaceChar p.1 p.2 (s ++ t)) = _
    rw [replaceChar_append]
    exact ih _ _

theorem lookup_eq_none_of_not_key {c : Char} {tab : List (Char × List Char)}
    (h : ∀ p ∈ tab, p.1 ≠ c) : List.lookup c tab = none := by
  induction tab with
  | nil => rfl
  | cons p ps ih =>
    have hp : (c == p.1) = false := by
      simp only [beq_eq_false_iff_ne, ne_eq]
      exact fun hc => h p (List.mem_cons_self _ _) hc.symm
    simp only [List.lookup, hp]
    exact ih (fun q hq => h q (List.mem_cons_of_mem _ hq))

/-- On one character the sequential table fold agrees with table lookup. -/
theorem applyTable_singleton (x : Char) :
    applyTable legalizer [x] = charSubst x := by
  by_cases hx : x ∈ legalizer.map Prod.fst
  · simp only [legalizer, List.map, List.mem_cons, List.not_mem_nil,
      or_false] at hx
    rcases hx with h | h | h | h | h | h | h | h | h <;> subst h <;> decide
  · have hkeys : ∀ p ∈ legalizer, p.1 ≠ x := by
      intro p hp he
      exact hx (he ▸ List.mem_map_of_mem Prod.fst hp)
    have h1 : applyTable legalizer [x] = [x] :=
      applyTable_of_not_mem (by
        intro p hp
        simp only [List.mem_singleton]
        exact hkeys p hp)
    have h2 : List.lookup x legalizer = none := lookup_eq_none_of_not_key hkeys
    rw [h1]
    simp [charSubst, h2]

theorem legalize_eq_substAll (s : List Char) :
    legalize_filename s = substAll s := by
  induction s with
  | nil => rfl
  | cons x xs ih =>
    have : legalize_filename (x :: xs)
        = applyTable legalizer [x] ++ applyTable legalizer xs := by
      show applyTable legalizer ([x] ++ xs) = _
      exact applyTable_append_str _ _ _
    rw [this, applyTable_singleton]
    show charSubst x ++ legalize_filename xs = substAll (x :: xs)
    rw [ih]
    rfl

/-- The legalizer table is cross-occurrence free: no reserved character
occurs in any replacement token (a concrete finite check). -/
theorem legalizer_cross_free :
    ∀ p ∈ legalizer, ∀ q ∈ legalizer, p.1 ∉ q.2 := by decide

/-- C5: filename sanitization substitutes every occurrence of each of the
nine reserved characters by its bracketed token (it agrees with the
single-pass per-character substitution of the table, and no reserved
character survives in its output), it maps the identity a/b:c"d to
a((fslash))b((colon))c((dquote))d, and it is idempotent. -/
theorem claim_C5_legalize_filename :
    legalize_filename ( "a/b:c\"d".toList)
        = "a((fslash))b((colon))c((dquote))d".toList
    ∧ (∀ s : List Char, legalize_filename s = substAll s)
    ∧ (∀ s : List Char, ∀ p ∈ legalizer, p.1 ∉ legalize_filename s)
    ∧ (∀ s : List Char,
        legalize_filename (legalize_filename s) = legalize_filename s) := by
  refine ⟨by decide, legalize_eq_substAll, ?_, ?_⟩
  · intro s p hp
    exact not_mem_applyTable_of_mem legalizer_cross_free hp s
  · intro s
    exact applyTable_idem legalizer_cross_free s

/-- A parsed grant response from the OAuth2 token endpoint: the fields of
token_info that refresh_token and get_authorized_header read. -/
structure TokenInfo where
  access_token : List Char
  expires_in : ℚ
deriving DecidableEq

/-- The mutable state of a SpotifyClientCredentialsJWTToken relevant to the
refresh logic: valid_until and the cached token_info (None before the first
grant). -/
structure SpotifyTokenState where
  valid_until : ℚ
  token_info : Option TokenInfo
deriving DecidableEq

/-- The state the constructor leaves behind on the default lazy path:
valid_until = 0.0 and token_info = None (no eager refresh). -/
def initialTokenState : SpotifyTokenState := { valid_until := 0, token_info := none }

/-- SpotifyClientCredentialsJWTToken.refresh_token: perform a grant exchange
at the given instant (grantAt is the token-endpoint oracle) and cache it,
with valid_until = refresh time + expires_in - 30. -/
def refresh_token (grantAt : ℚ → TokenInfo) (now : ℚ)
    (_s : SpotifyTokenState) : SpotifyTokenState :=
  { token_info := some (grantAt now),
    valid_until := now + (grantAt now).expires_in - 30 }

/-- SpotifyClientCredentialsJWTToken.get_authorized_header: refresh when the
current instant is past valid_until, then return the Bearer header built
from the cached access_token (None models the KeyError of reading a missing
token_info). The Nat counts the grant exchanges this call performed. -/
def get_authorized_header (grantAt : ℚ → TokenInfo) (now : ℚ)
    (s : SpotifyTokenState) : Option (List Char) × SpotifyTokenState × Nat :=
  if s.valid_until < now then
    let s' := refresh_token grantAt now s
    (s'.token_info.map (fun ti => "Bearer ".toList ++ ti.access_token), s', 1)
  else
    (s.token_info.map (fun ti => "Bearer ".toList ++ ti.access_token), s, 0)

/-- A sequence of get_authorized_header calls at the given instants,
threading the state and summing the grant exchanges performed. -/
def runHeaderCalls (grantAt : ℚ → TokenInfo) :
    List ℚ → SpotifyTokenState → SpotifyTokenState × Nat
  | [], s => (s, 0)
  | t :: ts, s =>
    let r := get_authorized_header grantAt t s
    let rest := runHeaderCalls grantAt ts r.2.1
    (rest.1, r.2.2 + rest.2)

theorem runHeaderCalls_no_refresh (grantAt : ℚ → TokenInfo)
    (ts : List ℚ) (s : SpotifyTokenState)
    (h : ∀ t ∈ ts, t ≤ s.valid_until) :
    runHeaderCalls grantAt ts s = (s, 0) := by
  induction ts with
  | nil => rfl
  | cons t ts ih =>
    have ht : ¬ s.valid_until < t :=
      not_lt.mpr (h t (List.mem_cons_self _ _))
    simp only [runHeaderCalls, get_authorized_header, if_neg ht]
    rw [ih (fun u hu => h u (List.mem_cons_of_mem _ hu))]
    simp

/-- C3: from the freshly constructed state, a sequence of calls whose later
instants all lie within expires_in - 30 seconds of the first successful
grant performs exactly one grant exchange in total; and any call past
valid_until performs exactly one exchange, returns the Bearer header of the
new grant and resets valid_until to the refresh time + expires_in - 30. -/
theorem claim_C3_token_refresh (grantAt : ℚ → TokenInfo) (t0 : ℚ)
    (ts : List ℚ) (h0 : 0 < t0)
    (hin : ∀ t ∈ ts, t ≤ t0 + (grantAt t0).expires_in - 30)
    (s : SpotifyTokenState) (t : ℚ) (ht : s.valid_until < t) :
    (runHeaderCalls grantAt (t0 :: ts) initialTokenState).2 = 1
    ∧ get_authorized_header grantAt t s =
        (some ( "Bearer ".toList ++ (grantAt t).access_token),
         { valid_until := t + (grantAt t).expires_in - 30,
           token_info := some (grantAt t) }, 1) := by
  constructor
  · have hfirst : initialTokenState.valid_until < t0 := h0
    simp only [runHeaderCalls, get_authorized_header, if_pos hfirst]
    rw [runHeaderCalls_no_refresh grantAt ts _ (fun u hu => hin u hu)]
    simp
  · simp only [get_authorized_header, if_pos ht, refresh_token, Option.map]

/-- Witness for C3 at a concrete grant oracle, instants 100, 200 and 3000
(all within 3600 - 30 seconds of the first grant at 100), and a concrete
expired state checked at instant 60. -/
theorem claim_C3_token_refresh_witness :
    (runHeaderCalls (fun _ => { access_token := [ 'k' ], expires_in := 3600 })
        [ 100, 200, 3000 ] initialTokenState).2 = 1
    ∧ get_authorized_header
        (fun _ => { access_token := [ 'k' ], expires_in := 3600 }) 60
        { valid_until := 50, token_info := none } =
        (some ( "Bearer ".toList ++ [ 'k' ]),
         { valid_until := 60 + 3600 - 30,
           token_info := some { access_token := [ 'k' ], expires_in := 3600 } },
         1) := by
  have h := claim_C3_token_refresh
    (fun _ => { access_token := [ 'k' ], expires_in := 3600 }) 100
    [ 200, 3000 ] (by norm_num)
    (by
      intro t htm
      simp only [List.mem_cons, List.mem_singleton, List.not_mem_nil,
        or_false] at htm
      rcases htm with rfl | rfl <;> norm_num)
    { valid_until := 50, token_info := none } 60 (by norm_num)
  exact h

/-- The process environment, os.environ: a partial map from variable name
to value. -/
def Env : Type := List Char → Option (List Char)

/-- An environment with no variables set. -/
def emptyEnv : Env := fun _ => none

/-- The non-time fields a constructed SpotifyClientCredentialsJWTToken
carries. -/
structure SpotifyTokenObj where
  client_id : Option (List Char)
  client_secret : Option (List Char)
  state : SpotifyTokenState
deriving DecidableEq

/-- SpotifyClientCredentialsJWTToken.__init__ on the default lazy path.
Returns either the raised exception's message or the constructed object
together with the list of environment variables the constructor consulted,
in consultation order. Faithful to the source: the environment is consulted
only when the client_id argument is None, and in that branch the
client_secret argument is ignored and overwritten from the environment. -/
def spotifyTokenInit (client_id client_secret : Option (List Char))
    (env : Env) : Except (List Char) (SpotifyTokenObj × List (List Char)) :=
  match client_id with
  | none =>
    match env ( "SPOTIFY_CLIENT_ID".toList) with
    | none => Except.error
        ( "You must specify client_id as an argument or set the CLIENT_ID environment variable.".toList)
    | some cid =>
      match env ( "SPOTIFY_CLIENT_SECRET".toList) with
      | none => Except.error
          ( "You must specify client_secret as an agrument or set the CLIENT_SECRET environment variable.".toList)
      | some cs => Except.ok
          ({ client_id := some cid, client_secret := some cs,
             state := initialTokenState },
           [ "SPOTIFY_CLIENT_ID".toList, "SPOTIFY_CLIENT_SECRET".toList ])
  | some cid => Except.ok
      ({ client_id := some cid, client_secret := client_secret,
         state := initialTokenState }, [])

/-- GeniusClientCredentialsJWTToken.__init__: only the token argument and
the GENIUS_TOKEN variable matter; client_id and client_secret are accepted
and discarded. -/
def geniusTokenInit (token : Option (List Char)) (env : Env) :
    Except (List Char) ((List Char) × List (List Char)) :=
  match token with
  | none =>
    match env ( "GENIUS_TOKEN".toList) with
    | none => Except.error
        ( "You must set genius api token as an argument or as an environment variable GENIUS_TOKEN".toList)
    | some t => Except.ok (t, [ "GENIUS_TOKEN".toList ])
  | some t => Except.ok (t, [])

/-- Whether an Except value is an error carrying a message that contains the
given substring. -/
def errorMessageHas {α : Type} (needle : List Char)
    (r : Except (List Char) α) : Bool :=
  match r with
  | Except.error msg => lcContains needle msg
  | Except.ok _ => false

/-- C7 evaluated on the code: with no explicit credentials and an empty
environment both constructors fail as the claim states, and the static
variant's message does name the missing variable GENIUS_TOKEN; but the
dynamic variant's message names CLIENT_ID and does not mention the variable
it actually consulted, SPOTIFY_CLIENT_ID, which is the variable whose
presence (with SPOTIFY_CLIENT_SECRET) makes the same construction succeed. -/
theorem claim_C7_missing_credentials :
    (spotifyTokenInit none none emptyEnv).isOk = false
    ∧ (geniusTokenInit none emptyEnv).isOk = false
    ∧ errorMessageHas ( "GENIUS_TOKEN".toList)
        (geniusTokenInit none emptyEnv) = true
    ∧ errorMessageHas ( "CLIENT_ID".toList)
        (spotifyTokenInit none none emptyEnv) = true
    ∧ errorMessageHas ( "SPOTIFY_CLIENT_ID".toList)
        (spotifyTokenInit none none emptyEnv) = false
    ∧ (spotifyTokenInit none none
        (fun v => if v = "SPOTIFY_CLIENT_ID".toList
            then some ( "id0".toList)
          else if v = "SPOTIFY_CLIENT_SECRET".toList
            then some ( "sec0".toList)
          else none)).isOk = true := by
  refine ⟨rfl, rfl, by decide, by decide, by decide, rfl⟩

/-- C9: constructing the dynamic credential manager with an explicit
client_id and client_secret = None succeeds, consults no environment
variable, and leaves client_secret equal to None; and with any explicit
client_id the passed client_secret is kept as given, so the environment
fallback is reached only when client_id itself is None. -/
theorem claim_C9_partial_credentials :
    (∀ (cid : List Char) (env : Env),
      spotifyTokenInit (some cid) none env =
        Except.ok
          ({ client_id := some cid, client_secret := none,
             state := initialTokenState }, []))
    ∧ (∀ (cid : List Char) (cs : Option (List Char)) (env : Env),
      spotifyTokenInit (some cid) cs env =
        Except.ok
          ({ client_id := some cid, client_secret := cs,
             state := initialTokenState }, [])) :=
  ⟨fun _ _ => rfl, fun _ _ _ => rfl⟩

/-- A track record as the crawler mutates it: the fields of the Spotify
track dictionary that the code reads or writes. artists is the list of
artist names (track['artists'][i]['name']); the three lyrics fields model
the keys 'lyrics', 'lyrics-song-name' and 'lyrics-artist-name', absent
until written. -/
structure TrackItem where
  artists : List (List Char)
  name : List Char
  id : List Char
  pipeline_identifier : List Char
  lyrics : Option (List Char)
  lyrics_song_name : Option (List Char)
  lyrics_artist_name : Option (List Char)
deriving DecidableEq

/-- The callback a scrapy.Request is created with. -/
inductive Callback where
  | parse
  | parseLyricsSearchResult
  | populateSongLyrics
deriving DecidableEq

/-- A request built by get_authorized_request: the url argument is the raw
JSON value passed (None when the code passes a null cursor). -/
structure AuthorizedRequest where
  url : Option (List Char)
  callback : Callback
deriving DecidableEq

/-- The tracks object of a primary-API search response. next is the JSON
key 'next': the outer Option is key presence, the inner Option is null
versus a URL string. -/
structure TracksPage where
  href : List Char
  items : List TrackItem
  next : Option (Option (List Char))
deriving DecidableEq

/-- The pagination tail of both parse callbacks (SpotifySearchCrawler.parse
and SpotifySearchCrawlerWithLyrics.parse): if the key 'next' is present in
the tracks object, yield an authorized follow-up request at its value with
the same parse callback; key presence alone is tested. -/
def paginationFollowUp (p : TracksPage) : Option AuthorizedRequest :=
  match p.next with
  | some v => some { url := v, callback := Callback.parse }
  | none => none

/-- The value of the 'next' key when present (None when the key is absent,
which paginationFollowUp never reads). -/
def nextValue (p : TracksPage) : Option (List Char) :=
  match p.next with
  | some v => v
  | none => none

/-- The follow-up requests issued along a chain of responses, where the
i-th response answers the i-th fetch: a response whose 'next' key is
present produces the next fetch, one without ends the crawl. -/
def followUpRequests : List TracksPage → List AuthorizedRequest
  | [] => []
  | p :: rest =>
    match paginationFollowUp p with
    | none => []
    | some r => r :: followUpRequests rest

/-- Page fetches performed for a response chain: the initial request plus
one per follow-up issued. -/
def totalFetches (ps : List TracksPage) : Nat :=
  1 + (followUpRequests ps).length

/-- C10: the decision to fetch a follow-up page tests only presence of the
'next' key; a tracks object whose 'next' key holds null still yields a
follow-up request built from that null value, while only an absent key ends
the pagination. -/
theorem claim_C10_null_cursor :
    (∀ (href : List Char) (items : List TrackItem),
      paginationFollowUp { href := href, items := items, next := some none }
        = some { url := none, callback := Callback.parse })
    ∧ (∀ (href : List Char) (items : List TrackItem)
        (v : Option (List Char)),
      paginationFollowUp { href := href, items := items, next := some v }
        = some { url := v, callback := Callback.parse })
    ∧ (∀ (href : List Char) (items : List TrackItem),
      paginationFollowUp { href := href, items := items, next := none }
        = none) :=
  ⟨fun _ _ => rfl, fun _ _ _ => rfl, fun _ _ => rfl⟩

/-- C4: for a finite chain in which the first N-1 responses carry a 'next'
URL and the Nth omits the key, exactly N page fetches occur, the i-th
follow-up request goes to exactly the URL of the i-th response's 'next'
with the parse callback, and no request is issued after the Nth response. -/
theorem claim_C4_pagination (mid : List TracksPage) (lastPage : TracksPage)
    (hmid : ∀ p ∈ mid, ∃ u, p.next = some (some u))
    (hlast : lastPage.next = none) :
    (followUpRequests (mid ++ [lastPage])).length = mid.length
    ∧ totalFetches (mid ++ [lastPage]) = mid.length + 1
    ∧ ∀ (i : Nat) (p : TracksPage), mid[i]? = some p →
        (followUpRequests (mid ++ [lastPage]))[i]? =
          some { url := nextValue p, callback := Callback.parse } := by
  induction mid with
  | nil =>
    refine ⟨?_, ?_, ?_⟩
    · simp [followUpRequests, paginationFollowUp, hlast]
    · simp [totalFetches, followUpRequests, paginationFollowUp, hlast]
    · intro i p hp
      simp at hp
  | cons q mid ih =>
    rcases hmid q (List.mem_cons_self _ _) with ⟨u, hu⟩
    have hq : paginationFollowUp q
        = some { url := some u, callback := Callback.parse } := by
      simp [paginationFollowUp, hu]
    have hnv : nextValue q = some u := by simp [nextValue, hu]
    have hrest := ih (fun p hp => hmid p (List.mem_cons_of_mem _ hp))
    have hunf : followUpRequests ((q :: mid) ++ [lastPage]) =
        { url := some u, callback := Callback.parse }
          :: followUpRequests (mid ++ [lastPage]) := by
      show followUpRequests (q :: (mid ++ [lastPage])) = _
      simp [followUpRequests, hq]
    refine ⟨?_, ?_, ?_⟩
    · rw [hunf]
      simp [hrest.1]
    · simp only [totalFetches] at hrest ⊢
      rw [hunf]
      simp only [List.length_cons]
      omega
    · intro i p hp
      cases i with
      | zero =>
        simp only [List.getElem?_cons_zero, Option.some.injEq] at hp
        subst hp
        rw [hunf]
        simp [hnv]
      | succ j =>
        simp only [List.getElem?_cons_succ] at hp
        rw [hunf]
        simp only [List.getElem?_cons_succ]
        exact hrest.2.2 j p hp
  
/-- Witness for C4 on a concrete three-response chain: two pages carrying
'next' URLs u1 and u2 and a final page without the key; three fetches, the
first follow-up at u1. -/
theorem claim_C4_pagination_witness :
    totalFetches
      [ { href := "h1".toList, items := [], next := some (some ( "u1".toList)) },
        { href := "h2".toList, items := [], next := some (some ( "u2".toList)) },
        { href := "h3".toList, items := [], next := none } ] = 3
    ∧ (followUpRequests
      [ { href := "h1".toList, items := [], next := some (some ( "u1".toList)) },
        { href := "h2".toList, items := [], next := some (some ( "u2".toList)) },
        { href := "h3".toList, items := [], next := none } ])[0]? =
        some { url := some ( "u1".toList), callback := Callback.parse } := by
  have h := claim_C4_pagination
    [ { href := "h1".toList, items := [], next := some (some ( "u1".toList)) },
      { href := "h2".toList, items := [], next := some (some ( "u2".toList)) } ]
    { href := "h3".toList, items := [], next := none }
    (by
      intro p hp
      simp only [List.mem_cons, List.not_mem_nil, or_false] at hp
      rcases hp with rfl | rfl
      · exact ⟨ "u1".toList, rfl⟩
      · exact ⟨ "u2".toList, rfl⟩)
    rfl
  exact ⟨h.2.1, h.2.2 0 _ rfl⟩

/-- A markup document: element nodes with a tag, attributes and children,
and text nodes. -/
inductive HtmlNode where
  | text (s : List Char)
  | elem (tag : List Char) (attrs : List (List Char × List Char))
      (children : List HtmlNode)

/-- Whether an element matches the CSS filter div[data-lyrics-container="true"]. -/
def isLyricsContainerDiv (tag : List Char)
    (attrs : List (List Char × List Char)) : Bool :=
  tag == "div".toList
    && attrs.any (fun p =>
      p.1 == "data-lyrics-container".toList && p.2 == "true".toList)

/-- The selector of populate_song_lyrics,
div[data-lyrics-container="true"] a > span::text, over a list of sibling
nodes in document order. The flags describe the current parent element:
divAnc — some ancestor-or-self of the parent matches the container filter;
isQualA — the parent is an anchor inside the container region; isSelSpan —
the parent is a span that is a direct child of such an anchor, so its text
children are selected. -/
def cssCollect : List HtmlNode → Bool → Bool → Bool → List (List Char)
  | [], _, _, _ => []
  | HtmlNode.text s :: rest, divAnc, isQualA, isSelSpan =>
    (if isSelSpan then [s] else [])
      ++ cssCollect rest divAnc isQualA isSelSpan
  | HtmlNode.elem tag attrs ch :: rest, divAnc, isQualA, isSelSpan =>
    let divAnc2 := divAnc || isLyricsContainerDiv tag attrs
    cssCollect ch divAnc2 (divAnc2 && tag == "a".toList)
        (isQualA && tag == "span".toList)
      ++ cssCollect rest divAnc isQualA isSelSpan

/-- The fragment list response.css(...).getall() of populate_song_lyrics. -/
def getall_lyrics (doc : HtmlNode) : List (List Char) :=
  cssCollect [doc] false false false

/-- The extracted lyrics string: ''.join of the selected fragments. -/
def extract_lyrics (doc : HtmlNode) : List Char :=
  (getall_lyrics doc).flatten

/-- Modelled from the spec's words (the spec describes the extraction as
taking all text fragments found within the lyrics-container markup region,
in document order): every text node below a container div, regardless of
the markup between them. -/
def specContainerTexts : List HtmlNode → Bool → List (List Char)
  | [], _ => []
  | HtmlNode.text s :: rest, inC =>
    (if inC then [s] else []) ++ specContainerTexts rest inC
  | HtmlNode.elem tag attrs ch :: rest, inC =>
    specContainerTexts ch (inC || isLyricsContainerDiv tag attrs)
      ++ specContainerTexts rest inC

/-- All text fragments within the lyrics-container region of a document,
in document order (the spec's description of the extraction). -/
def specAllContainerTexts (doc : HtmlNode) : List (List Char) :=
  specContainerTexts [doc] false

/-- The fragments the code's selector takes are an in-order subsequence of
all text fragments within the container region. -/
theorem cssCollect_sublist (l : List HtmlNode)
    (divAnc isQualA isSelSpan : Bool)
    (hsel : isSelSpan = true → divAnc = true)
    (hqual : isQualA = true → divAnc = true) :
    List.Sublist (cssCollect l divAnc isQualA isSelSpan)
      (specContainerTexts l divAnc) := by
  revert divAnc isQualA isSelSpan
  refine cssCollect.induct
    (motive := fun l _ _ _ => ∀ (divAnc isQualA isSelSpan : Bool),
      (isSelSpan = true → divAnc = true) → (isQualA = true → divAnc = true) →
      List.Sublist (cssCollect l divAnc isQualA isSelSpan)
        (specContainerTexts l divAnc))
    ?_ ?_ ?_ l false false false
  · intro _ _ _ divAnc isQualA isSelSpan _ _
    simp [cssCollect, specContainerTexts]
  · intro s rest _ _ _ ih divAnc isQualA isSelSpan hsel hqual
    simp only [cssCollect, specContainerTexts]
    cases isSelSpan with
    | true =>
      have hda : divAnc = true := hsel rfl
      subst hda
      exact List.Sublist.append (List.Sublist.refl _)
        (ih true isQualA true (fun _ => rfl) hqual)
    | false =>
      rw [if_neg (by simp)]
      rw [List.nil_append]
      refine List.Sublist.trans
        (ih divAnc isQualA false (by simp) hqual) ?_
      exact List.sublist_append_right _ _
  · intro tag attrs ch rest _ _ _ _ ihch ihrest divAnc isQualA isSelSpan hsel hqual
    simp only [cssCollect, specContainerTexts]
    refine List.Sublist.append ?_ (ihrest divAnc isQualA isSelSpan hsel hqual)
    refine ihch (divAnc || isLyricsContainerDiv tag attrs) _ _ ?_ ?_
    · intro hc
      simp only [Bool.and_eq_true] at hc
      rw [hqual hc.1]
      rfl
    · intro hc
      simp only [Bool.and_eq_true] at hc
      exact hc.1

/-- The result object of a secondary-API (Genius) search hit: the fields
parse_lyrics_search_result reads. -/
structure CandidateResult where
  title : List Char
  artist_names : List Char
  path : List Char
deriving DecidableEq

/-- One hit of the secondary search response (data['response']['hits']). -/
structure Candidate where
  type : List Char
  result : CandidateResult
deriving DecidableEq

/-- The GENIUS_BASE_URL constant. -/
def GENIUS_BASE_URL : List Char := "https://genius.com".toList

/-- The LYRICS_NOT_FOUND sentinel of SpotifySearchCrawlerWithLyrics. -/
def LYRICS_NOT_FOUND : List Char := "<LYRICS-NOT-FOUND>".toList

/-- A detail-page request yielded inside the candidate loop: the content
URL GENIUS_BASE_URL + path and the cb_kwargs carrying the candidate's
artist_names and title for populate_song_lyrics. -/
structure LyricsDetailRequest where
  url : List Char
  lyrics_artist_name : List Char
  lyrics_song_name : List Char
deriving DecidableEq

/-- The two nested conditions of the candidate loop, combined: the hit's
type is 'song', and (not exact) or (the case-folded artist name occurs in
the case-folded artist_names and the case-folded song name occurs in the
case-folded title) — Python parses not/or/and exactly this way. -/
def candidateAccepted (exact : Bool)
    (artist_name_lower song_name_lower : List Char) (c : Candidate) : Bool :=
  c.type == "song".toList
    && (!exact
      || (lcContains artist_name_lower (pyLower c.result.artist_names)
        && lcContains song_name_lower (pyLower c.result.title)))

/-- The detail request built for an accepted candidate. -/
def mkDetailRequest (c : Candidate) : LyricsDetailRequest :=
  { url := GENIUS_BASE_URL ++ c.result.path,
    lyrics_artist_name := c.result.artist_names,
    lyrics_song_name := c.result.title }

/-- The for-loop over candidates: one detail request is yielded per
candidate that passes both conditions; the loop never breaks, so it
continues past an accepted candidate. -/
def collectLyricsRequests (exact : Bool)
    (artist_name_lower song_name_lower : List Char) :
    List Candidate → List LyricsDetailRequest
  | [] => []
  | c :: rest =>
    if candidateAccepted exact artist_name_lower song_name_lower c then
      mkDetailRequest c
        :: collectLyricsRequests exact artist_name_lower song_name_lower rest
    else
      collectLyricsRequests exact artist_name_lower song_name_lower rest

/-- SpotifySearchCrawlerWithLyrics.parse_lyrics_search_result: the yielded
detail requests, and the track after the unconditional trailing writes of
the LYRICS_NOT_FOUND sentinel to its three lyrics keys. -/
def parse_lyrics_search_result (candidates : List Candidate)
    (song_name artist_name : List Char) (exact : Bool) (track : TrackItem) :
    List LyricsDetailRequest × TrackItem :=
  (collectLyricsRequests exact (pyLower artist_name) (pyLower song_name)
      candidates,
   { track with
       lyrics := some LYRICS_NOT_FOUND,
       lyrics_song_name := some LYRICS_NOT_FOUND,
       lyrics_artist_name := some LYRICS_NOT_FOUND })

/-- SpotifySearchCrawlerWithLyrics.populate_song_lyrics: extract the
selector fragments from the fetched page, join them with no separator, and
overwrite the track's three lyrics keys; the updated track is also the
item the callback yields. -/
def populate_song_lyrics (response : HtmlNode)
    (lyrics_song_name lyrics_artist_name : List Char) (track : TrackItem) :
    TrackItem :=
  { track with
      lyrics := some (extract_lyrics response),
      lyrics_song_name := some lyrics_song_name,
      lyrics_artist_name := some lyrics_artist_name }

/-- One scheduled detail callback: run populate_song_lyrics on the fetched
page and append the yielded item. -/
def lyricsStep (fetch : List Char → HtmlNode)
    (acc : TrackItem × List TrackItem) (req : LyricsDetailRequest) :
    TrackItem × List TrackItem :=
  let t2 := populate_song_lyrics (fetch req.url) req.lyrics_song_name
    req.lyrics_artist_name acc.1
  (t2, acc.2 ++ [t2])

/-- The whole per-track enrichment: the search callback runs first (yields
the detail requests and then writes the sentinel), after which the
scheduled detail callbacks run in order on the shared track. Returns the
final track state and the items yielded to the pipeline. -/
def lyricsFlow (fetch : List Char → HtmlNode) (candidates : List Candidate)
    (song_name artist_name : List Char) (exact : Bool) (track : TrackItem) :
    TrackItem × List TrackItem :=
  let r := parse_lyrics_search_result candidates song_name artist_name exact
    track
  r.1.foldl (lyricsStep fetch) (r.2, [])

theorem lyricsFlow_items_aux (fetch : List Char → HtmlNode)
    (reqs : List LyricsDetailRequest) (t : TrackItem) (acc : List TrackItem) :
    ∀ it ∈ (reqs.foldl (lyricsStep fetch) (t, acc)).2,
      it ∈ acc ∨ ∃ r ∈ reqs,
        it.lyrics = some (extract_lyrics (fetch r.url))
        ∧ it.lyrics_song_name = some r.lyrics_song_name
        ∧ it.lyrics_artist_name = some r.lyrics_artist_name := by
  induction reqs generalizing t acc with
  | nil =>
    intro it hit
    exact Or.inl hit
  | cons req rest ih =>
    intro it hit
    simp only [List.foldl_cons] at hit
    rcases ih _ _ it hit with hmem | ⟨r, hr, hfields⟩
    · rcases List.mem_append.mp hmem with hmem | hmem
      · exact Or.inl hmem
      · simp only [List.mem_singleton] at hmem
        subst hmem
        exact Or.inr ⟨req, List.mem_cons_self _ _, rfl, rfl, rfl⟩
    · exact Or.inr ⟨r, List.mem_cons_of_mem _ hr, hfields⟩

theorem collectLyricsRequests_mem {exact : Bool}
    {anl snl : List Char} {candidates : List Candidate}
    {r : LyricsDetailRequest}
    (h : r ∈ collectLyricsRequests exact anl snl candidates) :
    ∃ c ∈ candidates, candidateAccepted exact anl snl c = true
      ∧ r = mkDetailRequest c := by
  induction candidates with
  | nil => simp [collectLyricsRequests] at h
  | cons c rest ih =>
    by_cases hc : candidateAccepted exact anl snl c = true
    · rw [collectLyricsRequests, if_pos hc] at h
      rcases List.mem_cons.mp h with rfl | h
      · exact ⟨c, List.mem_cons_self _ _, hc, rfl⟩
      · rcases ih h with ⟨d, hd, hacc, hr⟩
        exact ⟨d, List.mem_cons_of_mem _ hd, hacc, hr⟩
    · rw [collectLyricsRequests, if_neg hc] at h
      rcases ih h with ⟨d, hd, hacc, hr⟩
      exact ⟨d, List.mem_cons_of_mem _ hd, hacc, hr⟩

/-- A concrete track for evaluating the matcher: song hello by adele. -/
def track0 : TrackItem :=
  { artists := [ "Adele".toList ], name := "hello".toList,
    id := "id1".toList, pipeline_identifier := [],
    lyrics := none, lyrics_song_name := none, lyrics_artist_name := none }

/-- A song candidate matching the track exactly. -/
def candHello : Candidate :=
  { type := "song".toList,
    result :=
      { title := "Hello".toList,
        artist_names := "Adele".toList,
        path := "/adele-hello-lyrics".toList } }

/-- A second song candidate that also passes the exact-match policy. -/
def candHelloLive : Candidate :=
  { type := "song".toList,
    result :=
      { title := "Hello (Live)".toList,
        artist_names := "Adele".toList,
        path := "/adele-hello-live-lyrics".toList } }

/-- A song candidate unrelated to the track. -/
def candOther : Candidate :=
  { type := "song".toList,
    result :=
      { title := "Song X".toList,
        artist_names := "Artist Y".toList,
        path := "/song-x".toList } }

/-- C1 evaluated on the code. On the claim's own example (candidates
Hello/Adele then Song X/Artist Y, exact) the first candidate alone is
accepted. But on a candidate list where two song candidates pass the
policy, the loop — which has no break or return after a yield — issues a
detail fetch for both, and the sentinel is still written to the track
afterwards, contradicting the claimed at-most-one fetch. -/
theorem claim_C1_no_stop_after_accept :
    (parse_lyrics_search_result [ candHello, candOther ]
        ( "hello".toList) ( "adele".toList) true track0).1
      = [ mkDetailRequest candHello ]
    ∧ (parse_lyrics_search_result [ candHello, candHelloLive ]
        ( "hello".toList) ( "adele".toList) true track0).1
      = [ mkDetailRequest candHello, mkDetailRequest candHelloLive ]
    ∧ (parse_lyrics_search_result [ candHello, candHelloLive ]
        ( "hello".toList) ( "adele".toList) true track0).2.lyrics
      = some LYRICS_NOT_FOUND := by
  refine ⟨rfl, rfl, rfl⟩

/-- C2: if the no-hit branch is taken (no candidate accepted, in
particular an empty candidate list) all three lyrics keys of the track end
as the LYRICS_NOT_FOUND sentinel and the flow completes; and every item
the flow hands to the pipeline carries the fetched lyrics and the accepted
candidate's names, none of them the sentinel (given the fetched pages and
candidate names do not literally equal the sentinel string). -/
theorem claim_C2_sentinel_iff_no_accept (fetch : List Char → HtmlNode)
    (candidates : List Candidate) (song_name artist_name : List Char)
    (exact : Bool) (track : TrackItem)
    (hns : ∀ r ∈ (parse_lyrics_search_result candidates song_name
        artist_name exact track).1,
      extract_lyrics (fetch r.url) ≠ LYRICS_NOT_FOUND
      ∧ r.lyrics_song_name ≠ LYRICS_NOT_FOUND
      ∧ r.lyrics_artist_name ≠ LYRICS_NOT_FOUND) :
    ((parse_lyrics_search_result candidates song_name artist_name exact
        track).1 = [] →
      (lyricsFlow fetch candidates song_name artist_name exact
        track).1.lyrics = some LYRICS_NOT_FOUND
      ∧ (lyricsFlow fetch candidates song_name artist_name exact
        track).1.lyrics_song_name = some LYRICS_NOT_FOUND
      ∧ (lyricsFlow fetch candidates song_name artist_name exact
        track).1.lyrics_artist_name = some LYRICS_NOT_FOUND)
    ∧ ∀ it ∈ (lyricsFlow fetch candidates song_name artist_name exact
        track).2,
      it.lyrics ≠ some LYRICS_NOT_FOUND
      ∧ it.lyrics_song_name ≠ some LYRICS_NOT_FOUND
      ∧ it.lyrics_artist_name ≠ some LYRICS_NOT_FOUND := by
  constructor
  · intro h
    have hflow : lyricsFlow fetch candidates song_name artist_name exact
        track
        = ((parse_lyrics_search_result candidates song_name artist_name
          exact track).2, []) := by
      show (parse_lyrics_search_result candidates song_name artist_name
          exact track).1.foldl (lyricsStep fetch)
          ((parse_lyrics_search_result candidates song_name artist_name
            exact track).2, []) = _
      rw [h]
      rfl
    rw [hflow]
    exact ⟨rfl, rfl, rfl⟩
  · intro it hit
    rcases lyricsFlow_items_aux fetch
        (parse_lyrics_search_result candidates song_name artist_name exact
          track).1
        (parse_lyrics_search_result candidates song_name artist_name exact
          track).2 [] it hit with hmem | ⟨r, hr, h1, h2, h3⟩
    · simp at hmem
    · have hn := hns r hr
      refine ⟨?_, ?_, ?_⟩
      · rw [h1]
        exact fun heq => hn.1 (Option.some.inj heq)
      · rw [h2]
        exact fun heq => hn.2.1 (Option.some.inj heq)
      · rw [h3]
        exact fun heq => hn.2.2 (Option.some.inj heq)

/-- Witness for C2: a secondary search returning zero hits leaves the
track's lyrics key at the sentinel. -/
theorem claim_C2_sentinel_iff_no_accept_witness :
    (lyricsFlow (fun _ => HtmlNode.text []) [] ( "hello".toList)
      ( "adele".toList) true track0).1.lyrics = some LYRICS_NOT_FOUND :=
  ((claim_C2_sentinel_iff_no_accept (fun _ => HtmlNode.text []) []
      ( "hello".toList) ( "adele".toList) true track0
      (by
        intro r hr
        simp [parse_lyrics_search_result, collectLyricsRequests] at hr)).1
    rfl).1

/-- A lyrics container holding a bare text fragment not wrapped in
a > span markup. -/
def lyricsDoc0 : HtmlNode :=
  HtmlNode.elem ( "div".toList)
    [ ( "data-lyrics-container".toList, "true".toList) ]
    [ HtmlNode.text ( "Hello".toList) ]

/-- Counterexample to C8 as stated: on a container page whose text lies
directly in the container div, the code extracts the empty string while
the concatenation of all text fragments within the container region is
Hello, so the extracted lyrics do not equal the claimed concatenation. -/
theorem claim_C8_counterexample :
    extract_lyrics lyricsDoc0 = []
    ∧ specAllContainerTexts lyricsDoc0 = [ "Hello".toList ]
    ∧ (populate_song_lyrics lyricsDoc0 ( "T".toList) ( "A".toList)
        track0).lyrics = some []
    ∧ extract_lyrics lyricsDoc0 ≠ (specAllContainerTexts lyricsDoc0).flatten := by
  have h1 : extract_lyrics lyricsDoc0 = [] := by
    simp [extract_lyrics, getall_lyrics, lyricsDoc0, cssCollect,
      isLyricsContainerDiv]
  have h2 : specAllContainerTexts lyricsDoc0 = [ "Hello".toList ] := by
    simp [specAllContainerTexts, lyricsDoc0, specContainerTexts,
      isLyricsContainerDiv]
  refine ⟨h1, h2, ?_, ?_⟩
  · show some (extract_lyrics lyricsDoc0) = some []
    rw [h1]
  · rw [h1, h2]
    decide

/-- C8 amended: every item the flow yields carries as lyrics the
concatenation, in document order and with no separator, of the text
fragments selected by div[data-lyrics-container="true"] a > span::text on
the fetched page of an accepted candidate — an in-order subsequence of all
text fragments within the container region, not all of them — together
with that candidate's title and artist_names. -/
theorem claim_C8_selector_extraction (fetch : List Char → HtmlNode)
    (candidates : List Candidate) (song_name artist_name : List Char)
    (exact : Bool) (track : TrackItem) :
    (∀ it ∈ (lyricsFlow fetch candidates song_name artist_name exact
        track).2,
      ∃ r ∈ (parse_lyrics_search_result candidates song_name artist_name
          exact track).1,
        it.lyrics = some (extract_lyrics (fetch r.url))
        ∧ it.lyrics_song_name = some r.lyrics_song_name
        ∧ it.lyrics_artist_name = some r.lyrics_artist_name)
    ∧ (∀ r ∈ (parse_lyrics_search_result candidates song_name artist_name
        exact track).1,
      ∃ c ∈ candidates,
        candidateAccepted exact (pyLower artist_name) (pyLower song_name) c
          = true
        ∧ r = mkDetailRequest c)
    ∧ (∀ doc, extract_lyrics doc = (getall_lyrics doc).flatten)
    ∧ (∀ doc, List.Sublist (getall_lyrics doc)
        (specAllContainerTexts doc)) := by
  refine ⟨?_, ?_, fun _ => rfl, ?_⟩
  · intro it hit
    rcases lyricsFlow_items_aux fetch
        (parse_lyrics_search_result candidates song_name artist_name exact
          track).1
        (parse_lyrics_search_result candidates song_name artist_name exact
          track).2 [] it hit with hmem | h
    · simp at hmem
    · exact h
  · intro r hr
    exact collectLyricsRequests_mem hr
  · intro doc
    exact cssCollect_sublist [doc] false false false (fun h => h)
      (fun h => h)

/-- The query-string portion of an href, as urllib.parse.urlparse(href).query
extracts it: the part after the first question mark of the pre-fragment
portion (empty when there is none). -/
def urlQuery (href : List Char) : List Char :=
  (((href.takeWhile (fun c => c ≠ '#')).dropWhile (fun c => c ≠ '?')).drop 1)

/-- The per-track stamping loop of SpotifySearchCrawlerWithLyrics.parse:
every track of the page gets pipeline_identifier = the query-string portion
of the page's own href. -/
def stamp_tracks (p : TracksPage) : List TrackItem :=
  p.items.map (fun t => { t with pipeline_identifier := urlQuery p.href })

/-- The output directory's files: filename to stored record. The JSON
serialization of json.dump is abstracted by storing the record itself. -/
def FileSystem : Type := List Char → Option TrackItem

/-- TrackItemPipeline.process_item: build the output filename
output_dir / legalize_filename(identifier-id.json) and write the item
there, mode w, replacing any previous content. Returns the updated
directory contents and the filename written. -/
def process_item (output_dir : List Char) (item : TrackItem)
    (fs : FileSystem) : FileSystem × List Char :=
  let output_filename := output_dir ++ "/".toList
    ++ legalize_filename (item.pipeline_identifier ++ "-".toList
      ++ item.id ++ ".json".toList)
  (fun n => if n = output_filename then some item else fs n,
   output_filename)

theorem legalize_filename_append_json (s : List Char) :
    legalize_filename (s ++ ".json".toList)
      = legalize_filename s ++ ".json".toList := by
  show applyTable legalizer (s ++ ".json".toList) = _
  rw [applyTable_append_str]
  rfl

/-- C6: the persisted artifact's filename is
output_dir / sanitize(pipeline_identifier-track_id).json, where the
sanitization covers the whole derived identity string; the write stores the
record there over any previous content and touches no other filename; the
filename does not depend on the directory's prior contents, so reprocessing
reproduces it with the same content; and parse stamps every track of a page
with pipeline_identifier = the query-string portion of the page's href. -/
theorem claim_C6_output_identity (output_dir : List Char) (item : TrackItem)
    (fs fs2 : FileSystem) (page : TracksPage) :
    (process_item output_dir item fs).2
      = output_dir ++ "/".toList
        ++ legalize_filename (item.pipeline_identifier ++ "-".toList
          ++ item.id)
        ++ ".json".toList
    ∧ (process_item output_dir item fs).1
        (process_item output_dir item fs).2 = some item
    ∧ (∀ n, n ≠ (process_item output_dir item fs).2 →
        (process_item output_dir item fs).1 n = fs n)
    ∧ (process_item output_dir item fs).2 = (process_item output_dir item fs2).2
    ∧ (process_item output_dir item fs).1 (process_item output_dir item fs).2
        = (process_item output_dir item fs2).1
          (process_item output_dir item fs2).2
    ∧ (∀ t ∈ stamp_tracks page,
        t.pipeline_identifier = urlQuery page.href) := by
  refine ⟨?_, ?_, ?_, rfl, ?_, ?_⟩
  · show output_dir ++ "/".toList
      ++ legalize_filename ((item.pipeline_identifier ++ "-".toList
        ++ item.id) ++ ".json".toList) = _
    rw [legalize_filename_append_json]
    simp [List.append_assoc]
  · show (if (process_item output_dir item fs).2
        = (process_item output_dir item fs).2
      then some item else fs (process_item output_dir item fs).2)
      = some item
    rw [if_pos rfl]
  · intro n hn
    show (if n = (process_item output_dir item fs).2 then some item
      else fs n) = fs n
    rw [if_neg hn]
  · show (if (process_item output_dir item fs).2
        = (process_item output_dir item fs).2
      then some item else fs (process_item output_dir item fs).2)
      = (if (process_item output_dir item fs2).2
        = (process_item output_dir item fs2).2
      then some item else fs2 (process_item output_dir item fs2).2)
    rw [if_pos rfl, if_pos rfl]
  · intro t ht
    rcases List.mem_map.mp ht with ⟨u, _, rfl⟩
    rfl
